import Mathlib

/-!
Verification development for the spreadsheet coordinate / formula binding
layer of the PowersheetMock repository.

The first section embeds the coordinate codec (`excel-coordinates`):
`numberToColumn`, `columnToNumber`, `createCellAddress`, `parseCellAddress`,
`createRange`, `createRangeFromCoords`, `getCellsInRange`, and the
drag-fill bound normalization of the grid's `handleMouseUp`.

JavaScript numbers are modelled as `Int` (all the code paths considered
here stay within exact integer arithmetic); strings as Lean `String`;
a thrown exception as `Option.none`.
-/

/-- Character class test for the regex class `[A-Z]` used by
`parseCellAddress` (and, implicitly, by `String.fromCharCode(65 + d)`). -/
def isUpperAZ (c : Char) : Bool := 65 ≤ c.toNat && c.toNat ≤ 90

/-- Character class test for the regex class `[0-9]` (`\d`). -/
def isDigitChar (c : Char) : Bool := 48 ≤ c.toNat && c.toNat ≤ 57

/-- Loop body of `numberToColumn` (source `excel-coordinates`, lines 23-33):
starting from a non-negative `index`, repeatedly prepend
`String.fromCharCode(65 + index % 26)` and set `index = floor(index/26) - 1`,
stopping when the next index would be negative (i.e. when `index < 26`).
The letters are produced least-significant-last, so the recursive call's
output is appended on the left. -/
def colLetters (index : Nat) : List Char :=
  let d : Char := Char.ofNat (65 + index % 26)
  if index < 26 then [d]
  else colLetters (index / 26 - 1) ++ [d]
termination_by index
decreasing_by
  have hlt : index / 26 < index := Nat.div_lt_self (by omega) (by omega)
  omega

/-- Source `numberToColumn(colIndex)`: the `while (index >= 0)` loop never
runs for a negative argument, giving the empty string; for a non-negative
argument it produces the bijective base-26 letters via `colLetters`. -/
def numberToColumn (colIndex : Int) : String :=
  if colIndex < 0 then "" else String.mk (colLetters colIndex.toNat)

/-- Value of a letter list taken least-significant digit first: the source
`columnToNumber` loop sums `(charCodeAt(length - 1 - i) - 65 + 1) * 26^i`
for `i = 0 .. length-1`, which is this recursion applied to the reversed
character list. -/
def colDigits : List Char → Int
  | [] => 0
  | c :: rest => ((c.toNat : Int) - 65 + 1) + 26 * colDigits rest

/-- Source `columnToNumber(column)` (lines 40-50): the power-sum over the
characters, minus one.  Note the source performs no validation at all:
the empty string yields `-1` and characters outside `A`-`Z` are folded in
blindly via their character codes. -/
def columnToNumber (column : String) : Int :=
  colDigits column.data.reverse - 1

/-- Embedding of the `ExcelCellAddress` record. -/
structure ExcelCellAddress where
  col : String
  row : Int
  display : String
deriving DecidableEq, Repr

/-- Decimal digit characters of a natural number, most significant first;
models JavaScript number-to-string conversion for non-negative integers
as used by the template literal in `createCellAddress`. -/
def decDigits (n : Nat) : List Char :=
  let d : Char := Char.ofNat (48 + n % 10)
  if n < 10 then [d]
  else decDigits (n / 10) ++ [d]
termination_by n
decreasing_by
  have hlt : n / 10 < n := Nat.div_lt_self (by omega) (by omega)
  omega

/-- Decimal rendering of an `Int`, modelling the `${row}` interpolation. -/
def intToDecimal (i : Int) : String :=
  if i < 0 then "-" ++ String.mk (decDigits (-i).toNat)
  else String.mk (decDigits i.toNat)

/-- Source `createCellAddress(rowIndex, colIndex)` (lines 58-67): 0-based
indices in, 1-based display row out, `display = col + row`. -/
def createCellAddress (rowIndex colIndex : Int) : ExcelCellAddress :=
  let col := numberToColumn colIndex
  let row := rowIndex + 1
  { col := col, row := row, display := col ++ intToDecimal row }

/-- Value of an all-digit character list under `parseInt(_, 10)`. -/
def digitsVal (cs : List Char) : Nat :=
  cs.foldl (fun acc c => acc * 10 + (c.toNat - 48)) 0

/-- Source `parseCellAddress(address)` (lines 74-85): the regex
`^([A-Z]+)(\d+)$` matches exactly when the string splits into a non-empty
all-`[A-Z]` prefix followed by a non-empty all-digit suffix (the greedy
letter group is the maximal such prefix).  On a match the result is
`(parseInt(rowStr) - 1, columnToNumber(colStr))`; otherwise the source
throws, which is modelled by `none`. -/
def parseCellAddress (address : String) : Option (Int × Int) :=
  let cs := address.data
  let lettersPart := cs.takeWhile isUpperAZ
  let digitsPart := cs.dropWhile isUpperAZ
  if lettersPart.isEmpty || digitsPart.isEmpty || !(digitsPart.all isDigitChar)
  then none
  else some ((digitsVal digitsPart : Int) - 1, columnToNumber (String.mk lettersPart))

/-- Embedding of the `ExcelRange` record; the source field `end` is a
reserved word in Lean and is rendered as `stop`. -/
structure ExcelRange where
  start : ExcelCellAddress
  stop : ExcelCellAddress
  display : String
deriving DecidableEq, Repr

/-- Source `createRange(start, end)` (lines 93-99). -/
def createRange (s e : ExcelCellAddress) : ExcelRange :=
  { start := s, stop := e, display := s.display ++ ":" ++ e.display }

/-- Source `createRangeFromCoords(startRow, startCol, endRow, endCol)`. -/
def createRangeFromCoords (startRow startCol endRow endCol : Int) : ExcelRange :=
  createRange (createCellAddress startRow startCol) (createCellAddress endRow endCol)

/-- The ascending integer list `lo, lo+1, ..., hi` (empty when `hi < lo`),
modelling a `for (let x = lo; x <= hi; x++)` loop. -/
def intRangeIncl (lo hi : Int) : List Int :=
  (List.range (hi + 1 - lo).toNat).map (fun k => lo + (k : Int))

/-- Source `getCellsInRange(range)` (lines 152-164): both endpoint displays
are re-parsed (a parse failure propagates as an exception, modelled by
`none`), then nested loops walk rows and columns from the start coordinates
up to the end coordinates.  No corner normalization is performed: if the
start lies below or right of the end the corresponding loop body never
runs. -/
def getCellsInRange (range : ExcelRange) : Option (List ExcelCellAddress) :=
  match parseCellAddress range.start.display, parseCellAddress range.stop.display with
  | some (sr, sc), some (er, ec) =>
      some ((intRangeIncl sr er).flatMap fun r =>
        (intRangeIncl sc ec).map fun c => createCellAddress r c)
  | _, _ => none

/-- Normalized drag-fill bounds from the grid's `handleMouseUp`
(`VirtualGrid`, lines 96-99): `(startRow, endRow, startCol, endCol)` as
`(min, max, min, max)` of the drag start and drag end cells. -/
def fillBounds (dragStart dragEnd : Nat × Nat) : Nat × Nat × Nat × Nat :=
  (min dragStart.1 dragEnd.1, max dragStart.1 dragEnd.1,
   min dragStart.2 dragEnd.2, max dragStart.2 dragEnd.2)

unseal colLetters in
example : numberToColumn 0 = "A" := by decide

unseal colLetters in
example : numberToColumn 27 = "AB" := by decide

example : columnToNumber ("AB") = 27 := by decide
example : parseCellAddress ("AB12") = some (11, 27) := by decide
example : parseCellAddress ("A0") = some (-1, 0) := by decide
example : parseCellAddress ("") = none := by decide
example : parseCellAddress ("1A") = none := by decide

unseal colLetters decDigits in
example : (createCellAddress 11 27).display = "AB12" := by decide

/-! Helper lemmas about character codes and character classes. -/

theorem toNat_ofNat_add65 (d : Nat) (h : d < 26) :
    (Char.ofNat (65 + d)).toNat = 65 + d := by
  have hall : ∀ e, e < 26 → (Char.ofNat (65 + e)).toNat = 65 + e := by decide
  exact hall d h

theorem toNat_ofNat_add48 (d : Nat) (h : d < 10) :
    (Char.ofNat (48 + d)).toNat = 48 + d := by
  have hall : ∀ e, e < 10 → (Char.ofNat (48 + e)).toNat = 48 + e := by decide
  exact hall d h

theorem isUpperAZ_ofNat_add65 (d : Nat) (h : d < 26) :
    isUpperAZ (Char.ofNat (65 + d)) = true := by
  have hall : ∀ e, e < 26 → isUpperAZ (Char.ofNat (65 + e)) = true := by decide
  exact hall d h

theorem isDigitChar_ofNat_add48 (d : Nat) (h : d < 10) :
    isDigitChar (Char.ofNat (48 + d)) = true := by
  have hall : ∀ e, e < 10 → isDigitChar (Char.ofNat (48 + e)) = true := by decide
  exact hall d h

theorem isUpperAZ_false_of_digit (c : Char) (h : isDigitChar c = true) :
    isUpperAZ c = false := by
  simp only [isDigitChar, Bool.and_eq_true, decide_eq_true_eq] at h
  simp only [isUpperAZ, Bool.and_eq_false_iff, decide_eq_false_iff_not]
  omega

/-! Helper lemmas about `colLetters` and `colDigits`. -/

theorem colLetters_ne_nil (n : Nat) : colLetters n ≠ [] := by
  rw [colLetters]
  split <;> simp

theorem colLetters_all_AZ (n : Nat) :
    ∀ c ∈ colLetters n, isUpperAZ c = true := by
  induction n using Nat.strong_induction_on with
  | _ n ih =>
    rw [colLetters]
    split
    · intro c hc
      simp only [List.mem_singleton] at hc
      subst hc
      exact isUpperAZ_ofNat_add65 _ (Nat.mod_lt _ (by omega))
    · intro c hc
      rcases List.mem_append.mp hc with h | h
      · have hlt : n / 26 < n := Nat.div_lt_self (by omega) (by omega)
        exact ih (n / 26 - 1) (by omega) c h
      · simp only [List.mem_singleton] at h
        subst h
        exact isUpperAZ_ofNat_add65 _ (Nat.mod_lt _ (by omega))

theorem colDigits_colLetters (n : Nat) :
    colDigits (colLetters n).reverse = (n : Int) + 1 := by
  induction n using Nat.strong_induction_on with
  | _ n ih =>
    rw [colLetters]
    split
    · rename_i hlt
      simp only [List.reverse_singleton, colDigits]
      have := toNat_ofNat_add65 (n % 26) (Nat.mod_lt _ (by omega))
      rw [this]
      have : n % 26 = n := Nat.mod_eq_of_lt hlt
      omega
    · rename_i hge
      have hlt : n / 26 < n := Nat.div_lt_self (by omega) (by omega)
      have hih := ih (n / 26 - 1) (by omega)
      simp only [List.reverse_append, List.reverse_singleton, List.singleton_append, colDigits]
      rw [hih]
      have := toNat_ofNat_add65 (n % 26) (Nat.mod_lt _ (by omega))
      rw [this]
      have hmd : n % 26 + 26 * (n / 26) = n := Nat.mod_add_div n 26
      have hd1 : 1 ≤ n / 26 := Nat.le_div_iff_mul_le (by omega) |>.mpr (by omega)
      push_cast
      omega

theorem colDigits_nonneg (ds : List Char)
    (h : ∀ c ∈ ds, isUpperAZ c = true) : 0 ≤ colDigits ds := by
  induction ds with
  | nil => simp [colDigits]
  | cons c rest ih =>
    have hc := h c (List.mem_cons_self _ _)
    simp only [isUpperAZ, Bool.and_eq_true, decide_eq_true_eq] at hc
    have hrest := ih (fun x hx => h x (List.mem_cons_of_mem _ hx))
    simp only [colDigits]
    omega

theorem colDigits_pos (ds : List Char) (hne : ds ≠ [])
    (h : ∀ c ∈ ds, isUpperAZ c = true) : 1 ≤ colDigits ds := by
  cases ds with
  | nil => exact absurd rfl hne
  | cons c rest =>
    have hc := h c (List.mem_cons_self _ _)
    simp only [isUpperAZ, Bool.and_eq_true, decide_eq_true_eq] at hc
    have hrest := colDigits_nonneg rest (fun x hx => h x (List.mem_cons_of_mem _ hx))
    simp only [colDigits]
    omega

theorem colLetters_colDigits (ds : List Char) (hne : ds ≠ [])
    (h : ∀ c ∈ ds, isUpperAZ c = true) :
    colLetters (colDigits ds - 1).toNat = ds.reverse := by
  induction ds with
  | nil => exact absurd rfl hne
  | cons c rest ih =>
    have hc := h c (List.mem_cons_self _ _)
    simp only [isUpperAZ, Bool.and_eq_true, decide_eq_true_eq] at hc
    cases rest with
    | nil =>
      simp only [colDigits, List.reverse_singleton]
      have hval : ((c.toNat : Int) - 65 + 1 + 26 * 0 - 1).toNat = c.toNat - 65 := by omega
      rw [hval, colLetters]
      have hlt : c.toNat - 65 < 26 := by omega
      rw [if_pos hlt]
      have hmod : (c.toNat - 65) % 26 = c.toNat - 65 := Nat.mod_eq_of_lt hlt
      rw [hmod]
      have : 65 + (c.toNat - 65) = c.toNat := by omega
      rw [this, Char.ofNat_toNat]
    | cons c2 rest2 =>
      have hvalid : ∀ x ∈ (c2 :: rest2), isUpperAZ x = true :=
        fun x hx => h x (List.mem_cons_of_mem _ hx)
      have hih := ih (by simp) hvalid
      have hm1 : 1 ≤ colDigits (c2 :: rest2) := colDigits_pos _ (by simp) hvalid
      have hstep : colDigits (c :: c2 :: rest2)
          = ((c.toNat : Int) - 65 + 1) + 26 * colDigits (c2 :: rest2) := rfl
      rw [hstep]
      have hN : ((c.toNat : Int) - 65 + 1 + 26 * colDigits (c2 :: rest2) - 1).toNat
          = (c.toNat - 65) + 26 * (colDigits (c2 :: rest2)).toNat := by omega
      rw [hN, colLetters]
      have hge : ¬ ((c.toNat - 65) + 26 * (colDigits (c2 :: rest2)).toNat < 26) := by omega
      rw [if_neg hge]
      have hmod : ((c.toNat - 65) + 26 * (colDigits (c2 :: rest2)).toNat) % 26
          = c.toNat - 65 := by omega
      have hdiv : ((c.toNat - 65) + 26 * (colDigits (c2 :: rest2)).toNat) / 26
          = (colDigits (c2 :: rest2)).toNat := by omega
      rw [hmod, hdiv]
      have hchar : 65 + (c.toNat - 65) = c.toNat := by omega
      rw [hchar, Char.ofNat_toNat]
      have htn : (colDigits (c2 :: rest2)).toNat - 1 = (colDigits (c2 :: rest2) - 1).toNat := by
        omega
      rw [htn, hih]
      simp

/-! Helper lemmas about decimal digits. -/

theorem decDigits_ne_nil (n : Nat) : decDigits n ≠ [] := by
  rw [decDigits]
  split <;> simp

theorem decDigits_all_digit (n : Nat) :
    ∀ c ∈ decDigits n, isDigitChar c = true := by
  induction n using Nat.strong_induction_on with
  | _ n ih =>
    rw [decDigits]
    split
    · intro c hc
      simp only [List.mem_singleton] at hc
      subst hc
      exact isDigitChar_ofNat_add48 _ (Nat.mod_lt _ (by omega))
    · intro c hc
      rcases List.mem_append.mp hc with h | h
      · have hlt : n / 10 < n := Nat.div_lt_self (by omega) (by omega)
        exact ih (n / 10) hlt c h
      · simp only [List.mem_singleton] at h
        subst h
        exact isDigitChar_ofNat_add48 _ (Nat.mod_lt _ (by omega))

theorem digitsVal_append_singleton (l : List Char) (c : Char) :
    digitsVal (l ++ [c]) = digitsVal l * 10 + (c.toNat - 48) := by
  simp [digitsVal, List.foldl_append]

theorem digitsVal_decDigits (n : Nat) : digitsVal (decDigits n) = n := by
  induction n using Nat.strong_induction_on with
  | _ n ih =>
    rw [decDigits]
    split
    · rename_i hlt
      simp only [digitsVal, List.foldl_cons, List.foldl_nil]
      have := toNat_ofNat_add48 (n % 10) (Nat.mod_lt _ (by omega))
      rw [this]
      have : n % 10 = n := Nat.mod_eq_of_lt hlt
      omega
    · rename_i hge
      have hlt : n / 10 < n := Nat.div_lt_self (by omega) (by omega)
      rw [digitsVal_append_singleton, ih (n / 10) hlt]
      have := toNat_ofNat_add48 (n % 10) (Nat.mod_lt _ (by omega))
      rw [this]
      have hmd : n % 10 + 10 * (n / 10) = n := Nat.mod_add_div n 10
      omega

/-! Helper lemmas about `takeWhile` / `dropWhile` over a letters-digits split. -/

theorem takeWhile_eq_nil_of_false {p : Char → Bool} {l : List Char}
    (h : ∀ c ∈ l, p c = false) : l.takeWhile p = [] := by
  cases l with
  | nil => rfl
  | cons c rest =>
    simp [List.takeWhile_cons, h c (List.mem_cons_self _ _)]

theorem dropWhile_eq_self_of_false {p : Char → Bool} {l : List Char}
    (h : ∀ c ∈ l, p c = false) : l.dropWhile p = l := by
  cases l with
  | nil => rfl
  | cons c rest =>
    simp [List.dropWhile_cons, h c (List.mem_cons_self _ _)]

theorem takeWhile_append_split {p : Char → Bool} (l₁ l₂ : List Char)
    (h₁ : ∀ c ∈ l₁, p c = true) (h₂ : ∀ c ∈ l₂, p c = false) :
    (l₁ ++ l₂).takeWhile p = l₁ ∧ (l₁ ++ l₂).dropWhile p = l₂ := by
  induction l₁ with
  | nil =>
    simp only [List.nil_append]
    exact ⟨takeWhile_eq_nil_of_false h₂, dropWhile_eq_self_of_false h₂⟩
  | cons c rest ih =>
    have hc := h₁ c (List.mem_cons_self _ _)
    have hrest := ih (fun x hx => h₁ x (List.mem_cons_of_mem _ hx))
    have h1 := hrest.1
    have h2 := hrest.2
    refine ⟨?_, ?_⟩ <;>
      simp [List.cons_append, List.takeWhile_cons, List.dropWhile_cons, hc, h1, h2]

/-! Round-trip helper lemmas for the codec. -/

theorem columnToNumber_mk_colLetters (n : Nat) :
    columnToNumber (String.mk (colLetters n)) = (n : Int) := by
  simp only [columnToNumber]
  change colDigits (colLetters n).reverse - 1 = (n : Int)
  rw [colDigits_colLetters]
  omega

theorem parseCellAddress_createCellAddress (r c : Int) (hr : 0 ≤ r) (hc : 0 ≤ c) :
    parseCellAddress (createCellAddress r c).display = some (r, c) := by
  have hcol : numberToColumn c = String.mk (colLetters c.toNat) := by
    simp [numberToColumn, not_lt.mpr hc]
  have hrow : intToDecimal (r + 1) = String.mk (decDigits (r + 1).toNat) := by
    simp only [intToDecimal]
    rw [if_neg (by omega)]
  have hdisp : (createCellAddress r c).display =
      String.mk (colLetters c.toNat) ++ String.mk (decDigits (r + 1).toNat) := by
    simp [createCellAddress, hcol, hrow]
  rw [hdisp]
  have hdata : (String.mk (colLetters c.toNat) ++ String.mk (decDigits (r + 1).toNat)).data
      = colLetters c.toNat ++ decDigits (r + 1).toNat := by
    rw [String.data_append]
  have hdisj : ∀ x ∈ decDigits (r + 1).toNat, isUpperAZ x = false :=
    fun x hx => isUpperAZ_false_of_digit x (decDigits_all_digit _ x hx)
  have hsplit := takeWhile_append_split (colLetters c.toNat) (decDigits (r + 1).toNat)
    (colLetters_all_AZ c.toNat) hdisj
  have h1 : (colLetters c.toNat).isEmpty = false := by
    simp [List.isEmpty_iff, colLetters_ne_nil]
  have h2 : (decDigits (r + 1).toNat).isEmpty = false := by
    simp [List.isEmpty_iff, decDigits_ne_nil]
  have h3 : ((decDigits (r + 1).toNat).all isDigitChar) = true :=
    List.all_eq_true.mpr (fun x hx => decDigits_all_digit _ x hx)
  simp only [parseCellAddress, hdata, hsplit.1, hsplit.2, h1, h2, h3,
    Bool.not_true, Bool.or_false, Bool.false_or, Bool.or_self, if_false]
  rw [digitsVal_decDigits, columnToNumber_mk_colLetters]
  have h4 : (((r + 1).toNat : Int)) = r + 1 := by omega
  have h5 : ((c.toNat : Int)) = c := by omega
  rw [h4, h5]
  simp

theorem numberToColumn_columnToNumber (L : String) (hne : L.data ≠ [])
    (hAZ : ∀ ch ∈ L.data, isUpperAZ ch = true) :
    numberToColumn (columnToNumber L) = L := by
  have hrvalid : ∀ ch ∈ L.data.reverse, isUpperAZ ch = true := by
    intro ch hch
    exact hAZ ch (List.mem_reverse.mp hch)
  have hrne : L.data.reverse ≠ [] := by
    intro hcontra
    exact hne (by simpa using congrArg List.reverse hcontra)
  have hpos : 1 ≤ colDigits L.data.reverse := colDigits_pos _ hrne hrvalid
  have hval : ¬ (columnToNumber L < 0) := by
    simp only [columnToNumber]
    omega
  simp only [numberToColumn, hval, if_false]
  have hrt := colLetters_colDigits L.data.reverse hrne hrvalid
  simp only [columnToNumber]
  rw [hrt, List.reverse_reverse]

/-- Specification-side predicate: the text matches `^[A-Z]+[0-9]+$`, i.e. it
decomposes into a non-empty all-uppercase-letter part followed by a
non-empty all-digit part.  Stated as an existential decomposition,
independently of how `parseCellAddress` scans the string. -/
def matchesLettersDigits (s : String) : Prop :=
  ∃ a b : List Char, s.data = a ++ b ∧ a ≠ [] ∧ b ≠ [] ∧
    (∀ c ∈ a, isUpperAZ c = true) ∧ (∀ c ∈ b, isDigitChar c = true)

theorem parseCellAddress_isSome_iff (s : String) :
    (parseCellAddress s).isSome = true ↔ matchesLettersDigits s := by
  constructor
  · intro hsome
    simp only [parseCellAddress] at hsome
    by_cases hcond : ((s.data.takeWhile isUpperAZ).isEmpty
        || (s.data.dropWhile isUpperAZ).isEmpty
        || !((s.data.dropWhile isUpperAZ).all isDigitChar)) = true
    · rw [if_pos hcond] at hsome
      simp at hsome
    · simp only [Bool.or_eq_true, not_or, Bool.not_eq_true] at hcond
      obtain ⟨⟨hta, htb⟩, htc⟩ := hcond
      refine ⟨s.data.takeWhile isUpperAZ, s.data.dropWhile isUpperAZ,
        (List.takeWhile_append_dropWhile _ _).symm, ?_, ?_, ?_, ?_⟩
      · intro hcontra
        rw [hcontra] at hta
        simp at hta
      · intro hcontra
        rw [hcontra] at htb
        simp at htb
      · intro c hc
        exact List.mem_takeWhile_imp hc
      · intro c hc
        have hall : (s.data.dropWhile isUpperAZ).all isDigitChar = true := by
          simpa using htc
        exact List.all_eq_true.mp hall c hc
  · rintro ⟨a, b, hsplit, hane, hbne, haz, hdig⟩
    have hdisj : ∀ c ∈ b, isUpperAZ c = false :=
      fun c hc => isUpperAZ_false_of_digit c (hdig c hc)
    have htw := takeWhile_append_split a b haz hdisj
    simp only [parseCellAddress, hsplit, htw.1, htw.2]
    have h1 : a.isEmpty = false := by
      cases a with
      | nil => exact absurd rfl hane
      | cons x xs => rfl
    have h2 : b.isEmpty = false := by
      cases b with
      | nil => exact absurd rfl hbne
      | cons x xs => rfl
    have h3 : b.all isDigitChar = true := List.all_eq_true.mpr hdig
    rw [h1, h2, h3]
    rfl

/-! Claim theorems for the coordinate codec. -/

/-- C2: for all row and column indices `r, c ≥ 0`,
`parseAddress(toAddress(r,c).display) == (r,c)`, and for every valid letter
string `L` (non-empty, only `A`-`Z`),
`columnIndexToLetters(lettersToColumnIndex(L)) == L`. -/
theorem C2_codec_roundtrip :
    (∀ r c : Int, 0 ≤ r → 0 ≤ c →
      parseCellAddress (createCellAddress r c).display = some (r, c)) ∧
    (∀ L : String, L.data ≠ [] → (∀ ch ∈ L.data, isUpperAZ ch = true) →
      numberToColumn (columnToNumber L) = L) :=
  ⟨fun r c hr hc => parseCellAddress_createCellAddress r c hr hc,
   fun L hne hAZ => numberToColumn_columnToNumber L hne hAZ⟩

/-- Witness for C2 at the concrete inputs `(r,c) = (11,27)` and `L = "AB"`. -/
theorem C2_codec_roundtrip_witness :
    parseCellAddress (createCellAddress 11 27).display = some (11, 27) ∧
    numberToColumn (columnToNumber ("AB")) = "AB" :=
  ⟨C2_codec_roundtrip.1 11 27 (by decide) (by decide),
   C2_codec_roundtrip.2 ("AB") (by decide) (by decide)⟩

unseal colLetters in
set_option maxRecDepth 8000 in
/-- C3: `columnIndexToLetters` implements bijective base-26 with no zero
digit — the five pinned values hold, and every step takes `index % 26` as
the next least-significant letter and continues with `floor(index/26) - 1`,
stopping when that would be negative. -/
theorem C3_bijective_base26 :
    numberToColumn 0 = "A" ∧ numberToColumn 25 = "Z" ∧ numberToColumn 26 = "AA" ∧
    numberToColumn 701 = "ZZ" ∧ numberToColumn 702 = "AAA" ∧
    (∀ n : Nat, colLetters n =
      (if 26 ≤ n then colLetters (n / 26 - 1) else []) ++ [Char.ofNat (65 + n % 26)]) := by
  refine ⟨by decide, by decide, by decide, by decide, by decide, ?_⟩
  intro n
  rw [colLetters]
  by_cases h : n < 26
  · rw [if_pos h, if_neg (by omega)]
    simp
  · rw [if_neg h, if_pos (by omega)]

/-- C4 counterexample: the source accepts `"A0"` (mapping row `0` to
row index `-1`) and `"A01"`, and `columnToNumber` does not fail on the
empty string but returns `-1` — contradicting the claim that these
inputs are rejected with a typed error. -/
theorem C4_counterexample :
    parseCellAddress ("A0") = some (-1, 0) ∧ parseCellAddress ("A0") ≠ none ∧
    parseCellAddress ("A01") = some (0, 0) ∧ parseCellAddress ("A01") ≠ none ∧
    columnToNumber ("") = -1 := by decide

/-- C4 (amended): `parseCellAddress` fails exactly when the text does not
match `^[A-Z]+[0-9]+$`; texts with row `0` or a leading zero are accepted
(row string `n` maps to row index `n - 1`, so `"A0"` yields `-1`), and
`columnToNumber` never fails, returning `-1` on the empty string. -/
theorem C4_amended_parse_failure :
    (∀ s : String, (parseCellAddress s).isSome = true ↔ matchesLettersDigits s) ∧
    parseCellAddress ("A0") = some (-1, 0) ∧
    parseCellAddress ("A01") = some (0, 0) ∧
    columnToNumber ("") = -1 :=
  ⟨fun s => parseCellAddress_isSome_iff s, by decide, by decide, by decide⟩

unseal colLetters decDigits in
set_option maxRecDepth 8000 in
/-- C5 counterexample: a range whose start corner lies below-right of its
end corner enumerates no cells at all, while the corner-swapped range
enumerates the full rectangle — the two cell sets differ. -/
theorem C5_counterexample :
    getCellsInRange (createRangeFromCoords 1 1 0 0) = some [] ∧
    getCellsInRange (createRangeFromCoords 0 0 1 1) =
      some [createCellAddress 0 0, createCellAddress 0 1,
            createCellAddress 1 0, createCellAddress 1 1] ∧
    ([] : List ExcelCellAddress) ≠
      [createCellAddress 0 0, createCellAddress 0 1,
       createCellAddress 1 0, createCellAddress 1 1] := by decide

/-- C5 (amended): the drag-fill bounds of `handleMouseUp` are normalized
with min/max and hence identical regardless of drag direction, but
`getCellsInRange` performs no corner normalization: a range whose start is
below-right of its end enumerates the empty cell list rather than the
swapped range's cells. -/
theorem C5_amended_range_normalization :
    (∀ a b : Nat × Nat, fillBounds a b = fillBounds b a) ∧
    (∀ sr sc er ec : Int, 0 ≤ sc → 0 ≤ er → 0 ≤ ec → er < sr →
      getCellsInRange (createRangeFromCoords sr sc er ec) = some []) := by
  constructor
  · intro a b
    simp only [fillBounds, Prod.ext_iff]
    omega
  · intro sr sc er ec hsc her hec hlt
    have hsr : 0 ≤ sr := le_trans her (le_of_lt hlt)
    have hp1 := parseCellAddress_createCellAddress sr sc hsr hsc
    have hp2 := parseCellAddress_createCellAddress er ec her hec
    have hstart : (createRangeFromCoords sr sc er ec).start = createCellAddress sr sc := rfl
    have hstop : (createRangeFromCoords sr sc er ec).stop = createCellAddress er ec := rfl
    simp only [getCellsInRange, hstart, hstop, hp1, hp2]
    have hempty : intRangeIncl sr er = [] := by
      have h0 : (er + 1 - sr).toNat = 0 := by omega
      simp [intRangeIncl, h0]
    rw [hempty]
    simp

/-- Witness for the amended C5 at drag corners `(0,0)`/`(1,1)` and the
reversed concrete range from row 1 down to row 0. -/
theorem C5_amended_range_normalization_witness :
    getCellsInRange (createRangeFromCoords 2 1 0 0) = some [] :=
  C5_amended_range_normalization.2 2 1 0 0 (by decide) (by decide) (by decide) (by decide)

/-!
Second section: the per-sheet formula registry (`FormulaEngine`).

`initializeSheet`, the sheet map and the sanitization of `undefined`
cells are embedded from the source (`FormulaEngine.ts`, lines 11-71).
The wrapped third-party evaluation engine (HyperFormula) is external to
the repository and is modelled at its interface boundary from spec section 6:
a sheet name keys an isolated context holding rectangular content plus the
formula cells submitted to it, and `setSheetContent` replaces a sheet's
whole content.
-/

/-- Cell scalar values: `vundef` models JavaScript `undefined`, `vnull`
models the explicit empty marker `null`, `verr` an evaluation error. -/
inductive CellV where
  | vundef
  | vnull
  | vnum (n : Int)
  | vstr (s : String)
  | verr
deriving DecidableEq, Repr

/-- Modelled from the spec: token of a raw formula as handled by the
missing `preprocessFormula` resolver (spec section 4.2) — a bare column-name
token, a subtraction/addition operator, or a numeric literal. -/
inductive Atom where
  | colName (s : String)
  | opSub
  | opAdd
  | num (n : Int)
deriving DecidableEq, Repr

/-- Modelled from the spec: token of a resolved formula — a cell reference
`(row, col)` in engine coordinates, an operator, a literal, or an
unresolvable column reference (spec `UnknownColumnReference`). -/
inductive RAtom where
  | ref (row col : Nat)
  | opSub
  | opAdd
  | num (n : Int)
  | unknown
deriving DecidableEq, Repr

/-- Modelled from the spec: insertion step of the longest-first ordering of
candidate column names (spec section 4.2: sort candidate column names by
descending length before the replacement pass). -/
def insertLenDesc (x : String) : List String → List String
  | [] => [x]
  | y :: ys => if y.length < x.length then x :: y :: ys else y :: insertLenDesc x ys

/-- Modelled from the spec: sort candidate names by descending length. -/
def sortLenDesc (l : List String) : List String := l.foldr insertLenDesc []

/-- Modelled from the spec: resolve one formula token against the sheet's
`backingColumnNames` (the missing `preprocessFormula` of `setCellValue`).
Candidates are tried longest-first; a matching name is replaced by the
reference to the column at the name's index in the backing list (index 0
is spreadsheet column `A`), at the target row. -/
def resolveAtom (backing cands : List String) (row : Nat) : Atom → RAtom
  | Atom.colName s =>
      match (sortLenDesc cands).find? (fun c => c == s) with
      | some c =>
          match backing.findIdx? (fun b => b == c) with
          | some i => RAtom.ref row i
          | none => RAtom.unknown
      | none => RAtom.unknown
  | Atom.opSub => RAtom.opSub
  | Atom.opAdd => RAtom.opAdd
  | Atom.num n => RAtom.num n

/-- Modelled from the spec: forward substitution (`resolveForStorage`) over
the whole formula token list. -/
def resolveForStorage (backing cands : List String) (row : Nat)
    (f : List Atom) : List RAtom :=
  f.map (resolveAtom backing cands row)

/-- Cell read in a rectangular content block; out-of-range reads yield the
empty value, matching the evaluation-engine interface of spec section 6. -/
def lookupCell (grid : List (List CellV)) (r c : Nat) : CellV :=
  (grid.getD r []).getD c CellV.vnull

/-- Modelled from the spec: numeric value of a resolved token under the
black-box evaluation engine — references read the content block, anything
non-numeric is an evaluation failure. -/
def atomVal (grid : List (List CellV)) : RAtom → Option Int
  | RAtom.ref r c =>
      match lookupCell grid r c with
      | CellV.vnum n => some n
      | _ => none
  | RAtom.num n => some n
  | _ => none

/-- Modelled from the spec: left-associated evaluation of the remaining
`(operator, operand)` pairs of a resolved formula. -/
def evalTail (grid : List (List CellV)) : Int → List RAtom → Option Int
  | acc, [] => some acc
  | acc, RAtom.opSub :: b :: rest =>
      match atomVal grid b with
      | some v => evalTail grid (acc - v) rest
      | none => none
  | acc, RAtom.opAdd :: b :: rest =>
      match atomVal grid b with
      | some v => evalTail grid (acc + v) rest
      | none => none
  | _, _ => none

/-- Modelled from the spec: evaluation of a resolved formula by the
black-box engine (`submitFormula` in spec section 6), for the `+`/`-`
expression fragment exercised by the repository's own test harness. -/
def evalR (grid : List (List CellV)) : List RAtom → Option Int
  | [] => none
  | a :: rest =>
      match atomVal grid a with
      | some v => evalTail grid v rest
      | none => none

/-- A formula cell tracked inside an isolated evaluation context:
position, raw formula, and cached computed value. -/
structure FormulaCell where
  row : Nat
  col : Nat
  formula : List Atom
  value : CellV
deriving DecidableEq, Repr

/-- An isolated evaluation context (one HyperFormula sheet): its loaded
rectangular content and its formula cells. -/
structure SheetCtx where
  content : List (List CellV)
  formulas : List FormulaCell
deriving DecidableEq, Repr

/-- State of the `FormulaEngine` singleton: `sheetMap` maps the public
`sheetId` to the internal sheet name `Sheet_<sheetId>` (the source stores
HyperFormula's numeric id for that name; the name itself is the faithful
key since `getSheetId` is determined by it), and `contexts` holds the
per-sheet isolated evaluation contexts keyed by internal name. -/
structure Engine where
  sheetMap : List (String × String)
  contexts : List (String × SheetCtx)
deriving DecidableEq, Repr

/-- Association-list lookup by string key (models `Map.get`). -/
def alookup {β : Type} (l : List (String × β)) (k : String) : Option β :=
  match l.find? (fun p => p.1 == k) with
  | some p => some p.2
  | none => none

/-- Association-list update by string key (models `Map.set`). -/
def aset {β : Type} (l : List (String × β)) (k : String) (v : β) : List (String × β) :=
  match l with
  | [] => [(k, v)]
  | p :: rest => if p.1 == k then (k, v) :: rest else p :: aset rest k v

/-- The engine before any sheet is initialized. -/
def emptyEngine : Engine := { sheetMap := [], contexts := [] }

/-- Sanitization of one row from the source `initializeSheet` (line 60-62):
`row.map(cell => cell === undefined ? null : cell)`. -/
def sanitizeRow (row : List CellV) : List CellV :=
  row.map (fun cell => if cell = CellV.vundef then CellV.vnull else cell)

/-- Source `initializeSheet(sheetId, data)` (`FormulaEngine.ts`, lines
29-71): derive the internal sheet name `Sheet_<sheetId>`, reuse or create
that sheet, record it in `sheetMap`, sanitize the data (`undefined` cells
become `null`), and hand it to `setSheetContent`, which replaces the
sheet's entire previous content (and with it any previous formula cells). -/
def initializeSheet (e : Engine) (sheetId : String) (data : List (List CellV)) : Engine :=
  let sheetName := "Sheet_" ++ sheetId
  let safeData := data.map sanitizeRow
  { sheetMap := aset e.sheetMap sheetId sheetName,
    contexts := aset e.contexts sheetName { content := safeData, formulas := [] } }

/-- Modelled from the spec: cell content as the tagged variant of spec
section 9 — the source's `content.startsWith('=')` test distinguishes the
literal and formula cases of the missing `setCellValue`. -/
inductive CellContent where
  | lit (v : CellV)
  | formula (f : List Atom)
deriving DecidableEq, Repr

/-- Pad a list on the right with a default element up to length `n`. -/
def padTo {α : Type} (l : List α) (n : Nat) (dflt : α) : List α :=
  l ++ List.replicate (n - l.length) dflt

/-- Write one cell of a content block, growing the block as the engine
does when a formula targets a cell beyond the loaded extent. -/
def setGridCell (g : List (List CellV)) (r c : Nat) (v : CellV) : List (List CellV) :=
  let g2 := padTo g (r + 1) []
  let row := padTo (g2.getD r []) (c + 1) CellV.vnull
  g2.set r (row.set c v)

/-- Modelled from the spec: the missing `setCellValue(sheetId, row, col,
content, backingColumnNames)` (spec section 4.3, exercised by the
repository's test harness but absent from the sources).  A formula is
resolved via the section 4.2 resolver, submitted to the named sheet's own
evaluation context, stored as a formula cell and its computed value
cached (an evaluation failure caches an error scalar); a literal clears
any formula cell at that position and writes the value.  Only the context
of the named sheet is touched. -/
def setCellValue (e : Engine) (sheetId : String) (row col : Nat)
    (content : CellContent) (backing : List String) : Engine :=
  match alookup e.sheetMap sheetId with
  | none => e
  | some name =>
    match alookup e.contexts name with
    | none => e
    | some ctx =>
      match content with
      | CellContent.formula f =>
          let resolved := resolveForStorage backing backing row f
          let v := match evalR ctx.content resolved with
            | some n => CellV.vnum n
            | none => CellV.verr
          let ctx2 : SheetCtx :=
            { content := setGridCell ctx.content row col v,
              formulas := ctx.formulas.filter
                  (fun fc => !(fc.row == row && fc.col == col))
                ++ [{ row := row, col := col, formula := f, value := v }] }
          { e with contexts := aset e.contexts name ctx2 }
      | CellContent.lit v =>
          let ctx2 : SheetCtx :=
            { content := setGridCell ctx.content row col v,
              formulas := ctx.formulas.filter
                  (fun fc => !(fc.row == row && fc.col == col)) }
          { e with contexts := aset e.contexts name ctx2 }

/-- Modelled from the spec: the missing `getCellValue(sheetId, row, col)`
— the cached computed value for a formula cell, the literal value
otherwise, `null` (here `none`) when the sheet or cell is unknown. -/
def getCellValue (e : Engine) (sheetId : String) (row col : Nat) : Option CellV :=
  match alookup e.sheetMap sheetId with
  | none => none
  | some name =>
    match alookup e.contexts name with
    | none => none
    | some ctx =>
      match ctx.formulas.find? (fun fc => fc.row == row && fc.col == col) with
      | some fc => some fc.value
      | none =>
        match ctx.content.get? row with
        | none => none
        | some rw => rw.get? col

/-- Modelled from the spec: the missing `getFormula(sheetId, row, col)` —
the raw formula text of a formula cell, else `none`. -/
def getFormula (e : Engine) (sheetId : String) (row col : Nat) : Option (List Atom) :=
  match alookup e.sheetMap sheetId with
  | none => none
  | some name =>
    match alookup e.contexts name with
    | none => none
    | some ctx =>
      match ctx.formulas.find? (fun fc => fc.row == row && fc.col == col) with
      | some fc => some fc.formula
      | none => none

/-- Content block currently loaded for a sheet, read through the sheet
map (observer used to state the `initializeSheet` properties). -/
def sheetContent (e : Engine) (sheetId : String) : Option (List (List CellV)) :=
  match alookup e.sheetMap sheetId with
  | none => none
  | some name =>
    match alookup e.contexts name with
    | none => none
    | some ctx => some ctx.content

/-- Formula cells currently registered for a sheet. -/
def sheetFormulas (e : Engine) (sheetId : String) : Option (List FormulaCell) :=
  match alookup e.sheetMap sheetId with
  | none => none
  | some name =>
    match alookup e.contexts name with
    | none => none
    | some ctx => some ctx.formulas

/-- A content block is rectangular when every row has the first row's
length. -/
def isRectangular (g : List (List CellV)) : Bool :=
  match g with
  | [] => true
  | r0 :: rest => rest.all (fun r => r.length == r0.length)

/-! Association-list lemmas for the sheet map and the context map. -/

theorem alookup_aset_self {β : Type} (l : List (String × β)) (k : String) (v : β) :
    alookup (aset l k v) k = some v := by
  induction l with
  | nil => simp [aset, alookup, List.find?]
  | cons p rest ih =>
    by_cases h : p.1 = k
    · simp [aset, alookup, List.find?, h]
    · have hb : (p.1 == k) = false := by simp [h]
      simp only [aset, hb, if_false]
      simp only [alookup, List.find?, hb] at ih ⊢
      exact ih

theorem alookup_aset_ne {β : Type} (l : List (String × β)) (k k' : String) (v : β)
    (h : k ≠ k') : alookup (aset l k v) k' = alookup l k' := by
  induction l with
  | nil =>
    have hb : (k == k') = false := by simp [h]
    simp [aset, alookup, List.find?, hb]
  | cons p rest ih =>
    by_cases hp : p.1 = k
    · have hb1 : (p.1 == k) = true := by simp [hp]
      have hb2 : (k == k') = false := by simp [h]
      have hb3 : (p.1 == k') = false := by simp [hp, h]
      simp [aset, alookup, List.find?, hb1, hb2, hb3]
    · have hb1 : (p.1 == k) = false := by simp [hp]
      simp only [aset, hb1, if_false]
      by_cases hq : p.1 = k'
      · have hb2 : (p.1 == k') = true := by simp [hq]
        simp [alookup, List.find?, hb2]
      · have hb2 : (p.1 == k') = false := by simp [hq]
        simp only [alookup, List.find?, hb2] at ih ⊢
        exact ih

theorem alookup_mem {β : Type} (l : List (String × β)) (k : String) (v : β)
    (h : alookup l k = some v) : (k, v) ∈ l := by
  induction l with
  | nil => simp [alookup, List.find?] at h
  | cons p rest ih =>
    by_cases hp : p.1 = k
    · have hb : (p.1 == k) = true := by simp [hp]
      simp only [alookup, List.find?, hb, Option.some.injEq] at h
      have hpk : p = (k, v) := by
        cases p
        simp_all
      rw [hpk]
      exact List.mem_cons_self _ _
    · have hb : (p.1 == k) = false := by simp [hp]
      simp only [alookup, List.find?, hb] at h ih
      exact List.mem_cons_of_mem _ (ih h)

theorem string_append_left_cancel (p a b : String) (h : p ++ a = p ++ b) : a = b := by
  have hd := congrArg String.data h
  simp only [String.data_append] at hd
  have hlist := List.append_cancel_left hd
  cases a
  cases b
  simp_all

theorem mem_aset {β : Type} (l : List (String × β)) (k : String) (v : β)
    (p : String × β) (hp : p ∈ aset l k v) : p = (k, v) ∨ p ∈ l := by
  induction l with
  | nil =>
    simp [aset] at hp
    left
    exact hp
  | cons q rest ih =>
    simp only [aset] at hp
    split at hp
    · simp only [List.mem_cons] at hp
      rcases hp with hp | hp
      · left
        exact hp
      · right
        exact List.mem_cons_of_mem _ hp
    · simp only [List.mem_cons] at hp
      rcases hp with hp | hp
      · right
        rw [hp]
        exact List.mem_cons_self _ _
      · rcases ih hp with h | h
        · left
          exact h
        · right
          exact List.mem_cons_of_mem _ h

theorem setCellValue_sheetMap (e : Engine) (sheetId : String) (row col : Nat)
    (content : CellContent) (backing : List String) :
    (setCellValue e sheetId row col content backing).sheetMap = e.sheetMap := by
  rcases halk : alookup e.sheetMap sheetId with _ | name
  · simp [setCellValue, halk]
  · rcases hctx : alookup e.contexts name with _ | ctx
    · simp [setCellValue, halk, hctx]
    · cases content <;> simp [setCellValue, halk, hctx]

/-- Resolution of one token depends on the candidate list only through its
longest-first ordering. -/
theorem resolveAtom_congr (backing : List String) (cands cands2 : List String)
    (row : Nat) (h : sortLenDesc cands = sortLenDesc cands2) (a : Atom) :
    resolveAtom backing cands row a = resolveAtom backing cands2 row a := by
  cases a <;> simp [resolveAtom, h]

theorem resolveForStorage_congr (backing : List String) (cands cands2 : List String)
    (row : Nat) (h : sortLenDesc cands = sortLenDesc cands2) (f : List Atom) :
    resolveForStorage backing cands row f = resolveForStorage backing cands2 row f := by
  simp only [resolveForStorage]
  apply List.map_congr_left
  intro a _
  exact resolveAtom_congr backing cands cands2 row h a

/-! Claim C1: the resolver scenario of the repository's test harness. -/

/-- Backing columns of the test harness scenario. -/
def c1backing : List String := ["A", "BB", "CCC"]

/-- Row values of the test harness scenario (`10, 20, 30` in row 1). -/
def c1data : List (List CellV) :=
  [[CellV.vnum 10, CellV.vnum 20, CellV.vnum 30],
   [CellV.vnum 100, CellV.vnum 200, CellV.vnum 300]]

/-- The user formula `=A-CCC` of the test harness scenario, tokenized. -/
def c1formula : List Atom := [Atom.colName ("A"), Atom.opSub, Atom.colName ("CCC")]

/-- Engine state after initializing the test sheet and entering `=A-CCC`
at cell `(0, 3)`, exactly as the repository's test harness does. -/
def c1engine : Engine :=
  setCellValue (initializeSheet emptyEngine ("test_sheet") c1data)
    ("test_sheet") 0 3 (CellContent.formula c1formula) c1backing

/-- Any candidate ordering that is a permutation of the scenario's backing
columns has the same longest-first ordering `["CCC", "BB", "A"]` (the three
name lengths are distinct). -/
theorem sortLenDesc_perm_c1 (cands : List String) (h : cands.Perm c1backing) :
    sortLenDesc cands = ["CCC", "BB", "A"] := by
  have hnodup : cands.Nodup := (List.Perm.nodup_iff h).mpr (by decide)
  have hlen : cands.length = 3 := by
    have := h.length_eq
    simpa [c1backing] using this
  match cands, hlen, hnodup with
  | [x, y, z], _, hnodup =>
    have hx : x ∈ c1backing := h.mem_iff.mp (by simp)
    have hy : y ∈ c1backing := h.mem_iff.mp (by simp)
    have hz : z ∈ c1backing := h.mem_iff.mp (by simp)
    simp only [c1backing, List.mem_cons, List.mem_singleton,
      List.not_mem_nil, or_false] at hx hy hz
    simp only [List.nodup_cons, List.mem_cons, List.mem_singleton,
      List.not_mem_nil, not_or, List.nodup_nil, and_true] at hnodup
    rcases hx with rfl | rfl | rfl <;> rcases hy with rfl | rfl | rfl <;>
      rcases hz with rfl | rfl | rfl <;> simp_all <;> decide

/-- C1: with backing columns `["A","BB","CCC"]` holding `10, 20, 30` in
the first row, the formula `=A-CCC` resolves every column-name token to
its intended backing column for every iteration order of the candidate
names (longest-first substitution makes the pass order-independent), and
the cached value reported by `getCellValue` is `10 - 30 = -20`. -/
theorem C1_resolver_determinism :
    (∀ cands : List String, cands.Perm c1backing →
      resolveForStorage c1backing cands 0 c1formula
        = [RAtom.ref 0 0, RAtom.opSub, RAtom.ref 0 2]) ∧
    getCellValue c1engine ("test_sheet") 0 3 = some (CellV.vnum (-20)) ∧
    getFormula c1engine ("test_sheet") 0 3 = some c1formula := by
  refine ⟨?_, by decide, by decide⟩
  intro cands h
  have hsort : sortLenDesc cands = sortLenDesc c1backing := by
    rw [sortLenDesc_perm_c1 cands h]
    decide
  rw [resolveForStorage_congr c1backing cands c1backing 0 hsort]
  decide

/-- Witness for C1 at the concrete candidate iteration order
`["CCC", "A", "BB"]`. -/
theorem C1_resolver_determinism_witness :
    resolveForStorage c1backing ["CCC", "A", "BB"] 0 c1formula
      = [RAtom.ref 0 0, RAtom.opSub, RAtom.ref 0 2] ∧
    getCellValue c1engine ("test_sheet") 0 3 = some (CellV.vnum (-20)) :=
  ⟨C1_resolver_determinism.1 ["CCC", "A", "BB"] (by decide),
   C1_resolver_determinism.2.1⟩

/-! Claim C6: `initializeSheet` sanitization, rectangularity, idempotence. -/

/-- A ragged content block: one row of length 1 and one of length 2. -/
def c6ragged : List (List CellV) := [[CellV.vnum 1], [CellV.vnum 1, CellV.vnum 2]]

/-- C6 counterexample: `initializeSheet` passes a ragged tabular content
through unchanged (no row padding is performed), so the evaluation engine
does not receive a fully rectangular grid. -/
theorem C6_counterexample :
    sheetContent (initializeSheet emptyEngine ("s") c6ragged) ("s") = some c6ragged ∧
    isRectangular c6ragged = false := by
  refine ⟨by decide, by decide⟩

/-- C6 (amended): `initializeSheet` replaces every `undefined` cell by the
explicit empty marker `null` and preserves each row's length (so the grid
is gap-free, and rectangular exactly when the input rows have equal
length), and it is idempotent: re-initializing the same sheet with new
content fully replaces the prior content and leaves no stale formula
entries. -/
theorem C6_amended_initializeSheet (e : Engine) (sheetId : String)
    (d1 d2 : List (List CellV)) :
    sheetContent (initializeSheet (initializeSheet e sheetId d1) sheetId d2) sheetId
      = some (d2.map sanitizeRow) ∧
    sheetFormulas (initializeSheet (initializeSheet e sheetId d1) sheetId d2) sheetId
      = some [] ∧
    (∀ row ∈ d2.map sanitizeRow, ∀ cell ∈ row, cell ≠ CellV.vundef) ∧
    (d2.map sanitizeRow).map List.length = d2.map List.length := by
  refine ⟨?_, ?_, ?_, ?_⟩
  · simp [initializeSheet, sheetContent, alookup_aset_self]
  · simp [initializeSheet, sheetFormulas, alookup_aset_self]
  · intro row hrow cell hcell
    rw [List.mem_map] at hrow
    obtain ⟨r0, _, hr0⟩ := hrow
    rw [← hr0] at hcell
    simp only [sanitizeRow, List.mem_map] at hcell
    obtain ⟨x, _, hx⟩ := hcell
    by_cases hu : x = CellV.vundef
    · rw [← hx, if_pos hu]
      intro hcontra
      cases hcontra
    · rw [← hx, if_neg hu]
      exact hu
  · rw [List.map_map]
    apply List.map_congr_left
    intro r0 _
    simp [sanitizeRow]

/-! Claim C7: sheet isolation. -/

/-- Invariant of the engine's sheet map: the internal name recorded for a
sheet id is always `Sheet_<sheetId>`, as established by `initializeSheet`. -/
def goodSheetMap (e : Engine) : Prop :=
  ∀ p ∈ e.sheetMap, p.2 = "Sheet_" ++ p.1

instance (e : Engine) : Decidable (goodSheetMap e) := by
  unfold goodSheetMap
  infer_instance

/-- Every reachable engine state has a good sheet map: the empty engine
does, and both operations preserve it. -/
theorem goodSheetMap_preserved :
    goodSheetMap emptyEngine ∧
    (∀ e sheetId data, goodSheetMap e → goodSheetMap (initializeSheet e sheetId data)) ∧
    (∀ e sheetId row col content backing, goodSheetMap e →
      goodSheetMap (setCellValue e sheetId row col content backing)) := by
  refine ⟨?_, ?_, ?_⟩
  · intro p hp
    simp [emptyEngine] at hp
  · intro e sheetId data hgood
    intro p hp
    simp only [initializeSheet] at hp
    rcases mem_aset _ _ _ _ hp with h | h
    · simp [h]
    · exact hgood p h
  · intro e sheetId row col content backing hgood
    intro p hp
    rw [setCellValue_sheetMap] at hp
    exact hgood p hp

/-- C7: for distinct sheet ids, writing a formula or a literal to a cell
of one sheet never changes any value (or formula) reported for any cell
of the other sheet — each sheet id maps to its own isolated evaluation
context and the mutation touches only the named sheet's context. -/
theorem C7_sheet_isolation (e : Engine) (sheetA sheetB : String)
    (r c : Nat) (content : CellContent) (backing : List String) (r2 c2 : Nat)
    (hgood : goodSheetMap e) (hne : sheetA ≠ sheetB) :
    getCellValue (setCellValue e sheetA r c content backing) sheetB r2 c2
      = getCellValue e sheetB r2 c2 ∧
    getFormula (setCellValue e sheetA r c content backing) sheetB r2 c2
      = getFormula e sheetB r2 c2 := by
  rcases halkA : alookup e.sheetMap sheetA with _ | nameA
  · simp [setCellValue, halkA]
  · have hnameA : nameA = "Sheet_" ++ sheetA :=
      hgood (sheetA, nameA) (alookup_mem _ _ _ halkA)
    rcases hctxA : alookup e.contexts nameA with _ | ctxA
    · simp [setCellValue, halkA, hctxA]
    · have hmap : (setCellValue e sheetA r c content backing).sheetMap = e.sheetMap := by
        simp only [setCellValue, halkA, hctxA]
        cases content <;> rfl
      rcases halkB : alookup e.sheetMap sheetB with _ | nameB
      · constructor <;> simp [getCellValue, getFormula, hmap, halkB]
      · have hnameB : nameB = "Sheet_" ++ sheetB :=
          hgood (sheetB, nameB) (alookup_mem _ _ _ halkB)
        have hnames : nameA ≠ nameB := by
          rw [hnameA, hnameB]
          intro hcontra
          exact hne (string_append_left_cancel _ _ _ hcontra)
        have hctxB : alookup (setCellValue e sheetA r c content backing).contexts nameB
            = alookup e.contexts nameB := by
          simp only [setCellValue, halkA, hctxA]
          cases content <;> exact alookup_aset_ne _ _ _ _ hnames
        constructor <;>
          simp only [getCellValue, getFormula, hmap, halkB, hctxB]

/-- Engine with two initialized sheets used as the concrete C7 witness
state. -/
def c7engine : Engine :=
  initializeSheet (initializeSheet emptyEngine ("a") [[CellV.vnum 1]])
    ("b") [[CellV.vnum 2]]

/-- Witness for C7: on the concrete two-sheet engine, writing a literal
to sheet `a` leaves sheet `b`'s reported value and formula unchanged. -/
theorem C7_sheet_isolation_witness :
    getCellValue (setCellValue c7engine ("a") 0 0 (CellContent.lit (CellV.vnum 9)) []) ("b") 0 0
      = getCellValue c7engine ("b") 0 0 ∧
    getFormula (setCellValue c7engine ("a") 0 0 (CellContent.lit (CellV.vnum 9)) []) ("b") 0 0
      = getFormula c7engine ("b") 0 0 :=
  C7_sheet_isolation c7engine ("a") ("b") 0 0 (CellContent.lit (CellV.vnum 9)) [] 0 0
    (by decide) (by decide)

/-!
Third section: the selection / edit state machine of the grid
(`VirtualGrid`, source part with `handleKeyDown`, `handleCellBlur`,
`handleCellKeyDown`).  The component state is the pair
`(selectedCell, editingCell)`; the `onCellEdit` callback invocations —
the only mutation channel toward the formula registry and the backing
store — are returned as an explicit list of emitted edits. -/

/-- Props and environment of the grid component: loaded rows, schema
column count, the formula registry view consulted for edit seeding, and
whether a `sheetId` is present. -/
structure GridCtx where
  data : List (List CellV)
  colCount : Nat
  formulas : List (Nat × Nat × String)
  hasSheetId : Bool
deriving DecidableEq, Repr

/-- Component state: `selectedCell` and `editingCell` (row, col, buffer). -/
structure UIState where
  selectedCell : Option (Nat × Nat)
  editingCell : Option (Nat × Nat × String)
deriving DecidableEq, Repr

/-- Keyboard events distinguished by the two handlers. `char` is a
length-1 printable key with no control/meta/alt modifier. -/
inductive Key where
  | arrowUp
  | arrowDown
  | arrowLeft
  | arrowRight
  | f2
  | delete
  | char (c : Char)
  | enter
  | escape
  | tab
deriving DecidableEq, Repr

/-- Rendering of a cell value by JavaScript `String(value)` with the
source's `null`/`undefined` guard mapping those to the empty string
(the exact rendering of numbers is irrelevant to the claims below). -/
def displayString (v : CellV) : String :=
  match v with
  | CellV.vnull => ""
  | CellV.vundef => ""
  | CellV.vnum n => intToDecimal n
  | CellV.vstr s => s
  | CellV.verr => ""

/-- The `FormulaEngine.getFormula` view consulted by the grid when
seeding an edit. -/
def lookupFormula (ctx : GridCtx) (r c : Nat) : Option String :=
  match ctx.formulas.find? (fun q => q.1 == r && q.2.1 == c) with
  | some q => some q.2.2
  | none => none

/-- JavaScript `a || b` for an optional string `a`: an absent or empty
string falls through to `b`. -/
def jsOrElse (a : Option String) (b : String) : String :=
  match a with
  | some f => if f.isEmpty then b else f
  | none => b

/-- Source `handleKeyDown` (window keydown, `VirtualGrid` lines 137-190):
inert unless a cell is selected and no edit session is active.  Arrows
move the selection clamped to `[0, rowCount-1] x [0, colCount-1]` (the
lower clamp `Math.max(0, _)` is truncated `Nat` subtraction here);
`F2` starts an edit seeded with the cell's formula, else its rendered
value; `Delete` starts an edit with an empty buffer; a printable
character starts an edit seeded with that character.  No branch invokes
`onCellEdit`, so every branch emits no edits. -/
def handleKeyDown (ctx : GridCtx) (s : UIState) (k : Key) :
    UIState × List (Nat × Nat × String) :=
  match s.selectedCell, s.editingCell with
  | none, _ => (s, [])
  | some _, some _ => (s, [])
  | some (row, col), none =>
    match k with
    | Key.arrowUp => ({ s with selectedCell := some (row - 1, col) }, [])
    | Key.arrowDown =>
        ({ s with selectedCell := some (min (ctx.data.length - 1) (row + 1), col) }, [])
    | Key.arrowLeft => ({ s with selectedCell := some (row, col - 1) }, [])
    | Key.arrowRight =>
        ({ s with selectedCell := some (row, min (ctx.colCount - 1) (col + 1)) }, [])
    | Key.f2 =>
        let formula := if ctx.hasSheetId then lookupFormula ctx row col else none
        let seed := jsOrElse formula (displayString (lookupCell ctx.data row col))
        ({ s with editingCell := some (row, col, seed) }, [])
    | Key.delete => ({ s with editingCell := some (row, col, "") }, [])
    | Key.char c => ({ s with editingCell := some (row, col, String.singleton c) }, [])
    | _ => (s, [])

/-- Source `handleCellBlur` (lines 192-197): if an edit session is
active, commit its buffer through `onCellEdit`, then end the session. -/
def handleCellBlur (s : UIState) : UIState × List (Nat × Nat × String) :=
  match s.editingCell with
  | some (r, c, v) => ({ s with editingCell := none }, [(r, c, v)])
  | none => ({ s with editingCell := none }, [])

/-- Source `handleCellKeyDown` (input keydown, lines 199-223): `Enter`
commits via blur and moves the selection down clamped to the last row;
`Escape` discards the session with no commit; `Tab` commits via blur and
moves right, wrapping to `(row + 1, 0)` — with no clamp on the row —
when already in the last column. -/
def handleCellKeyDown (ctx : GridCtx) (s : UIState) (k : Key) :
    UIState × List (Nat × Nat × String) :=
  match k with
  | Key.enter =>
      let blurred := handleCellBlur s
      match blurred.1.selectedCell with
      | some (row, col) =>
          let target := min (ctx.data.length - 1) (row + 1)
          ({ blurred.1 with selectedCell := some (target, col) }, blurred.2)
      | none => blurred
  | Key.escape => ({ s with editingCell := none }, [])
  | Key.tab =>
      let blurred := handleCellBlur s
      match blurred.1.selectedCell with
      | some (row, col) =>
          if ctx.colCount ≤ col + 1 then
            ({ blurred.1 with selectedCell := some (row + 1, 0) }, blurred.2)
          else
            ({ blurred.1 with selectedCell := some (row, col + 1) }, blurred.2)
      | none => blurred
  | _ => (s, [])

/-- The edit input's `onChange`: replace the active buffer. -/
def setEditBuffer (s : UIState) (v : String) : UIState :=
  match s.editingCell with
  | some (r, c, _) => { s with editingCell := some (r, c, v) }
  | none => s

/-! Claim C8: the Delete key and the commit of the cleared cell. -/

/-- Concrete grid context for the Delete scenario. -/
def c8ctx : GridCtx :=
  { data := [[CellV.vnum 5]], colCount := 1, formulas := [], hasSheetId := true }

/-- Concrete state: cell `(0,0)` selected, no edit session active. -/
def c8sel : UIState := { selectedCell := some (0, 0), editingCell := none }

/-- C8 counterexample: pressing Delete with a cell selected and no active
edit starts an Editing session with an empty buffer but does not commit
it — the event emits no `onCellEdit` call and leaves the session open, so
the cell is not cleared as a zero-duration edit without further user
action. -/
theorem C8_counterexample :
    (handleKeyDown c8ctx c8sel Key.delete).2 = [] ∧
    (handleKeyDown c8ctx c8sel Key.delete).1.editingCell = some (0, 0, "") ∧
    ¬ ((handleKeyDown c8ctx c8sel Key.delete).2 = [(0, 0, "")] ∧
       (handleKeyDown c8ctx c8sel Key.delete).1.editingCell = none) := by decide

/-- C8 (amended): pressing Delete while a cell is selected and no edit is
active starts an Editing session with an empty buffer and emits no
commit; the clearing edit is committed only when that session later ends
(blur, Enter or Tab), which then emits exactly the single empty edit for
that cell. -/
theorem C8_amended_delete_deferred_commit (ctx : GridCtx) (r c : Nat) :
    (handleKeyDown ctx { selectedCell := some (r, c), editingCell := none } Key.delete).2
      = [] ∧
    (handleKeyDown ctx { selectedCell := some (r, c), editingCell := none } Key.delete).1
      = { selectedCell := some (r, c), editingCell := some (r, c, "") } ∧
    handleCellBlur { selectedCell := some (r, c), editingCell := some (r, c, "") }
      = ({ selectedCell := some (r, c), editingCell := none }, [(r, c, "")]) :=
  ⟨rfl, rfl, rfl⟩

/-! Claim C9: Escape cancels an edit with no mutation. -/

/-- C9: starting an edit with a printable keystroke, replacing the buffer,
and pressing Escape emits no `onCellEdit` call at any point and closes the
session; consequently the formula registry — which is only ever mutated
through the emitted edits — reports unchanged values and formulas for
every cell, whatever the edit-application function is. -/
theorem C9_escape_cancel (ctx : GridCtx) (r c : Nat) (ch : Char) (v : String)
    (engine : Engine) :
    (handleKeyDown ctx { selectedCell := some (r, c), editingCell := none }
        (Key.char ch)).2 = [] ∧
    (handleCellKeyDown ctx
        (setEditBuffer
          (handleKeyDown ctx { selectedCell := some (r, c), editingCell := none }
            (Key.char ch)).1 v)
        Key.escape).2 = [] ∧
    (handleCellKeyDown ctx
        (setEditBuffer
          (handleKeyDown ctx { selectedCell := some (r, c), editingCell := none }
            (Key.char ch)).1 v)
        Key.escape).1.editingCell = none ∧
    (∀ (apply1 : Engine → Nat × Nat × String → Engine) (sid : String) (r2 c2 : Nat),
      getCellValue (List.foldl apply1 engine
          ((handleKeyDown ctx { selectedCell := some (r, c), editingCell := none }
              (Key.char ch)).2 ++
            (handleCellKeyDown ctx
              (setEditBuffer
                (handleKeyDown ctx { selectedCell := some (r, c), editingCell := none }
                  (Key.char ch)).1 v)
              Key.escape).2)) sid r2 c2
        = getCellValue engine sid r2 c2 ∧
      getFormula (List.foldl apply1 engine
          ((handleKeyDown ctx { selectedCell := some (r, c), editingCell := none }
              (Key.char ch)).2 ++
            (handleCellKeyDown ctx
              (setEditBuffer
                (handleKeyDown ctx { selectedCell := some (r, c), editingCell := none }
                  (Key.char ch)).1 v)
              Key.escape).2)) sid r2 c2
        = getFormula engine sid r2 c2) :=
  ⟨rfl, rfl, rfl, fun _ _ _ _ => ⟨rfl, rfl⟩⟩

/-! Claim C10: Tab versus Enter at the grid boundary. -/

theorem handleCellBlur_fst_selectedCell (s : UIState) :
    (handleCellBlur s).1.selectedCell = s.selectedCell := by
  rcases hedit : s.editingCell with _ | ⟨r2, c2, v2⟩ <;> simp [handleCellBlur, hedit]

/-- C10: committing with Tab from the last column advances to
`(rowIndex + 1, 0)` with no clamp on the new row index, so from the
bottom-right cell the selection lands on row index `rowCount` — one past
the last data row — while committing with Enter clamps the advanced row
index to `rowCount - 1`. -/
theorem C10_tab_unclamped_enter_clamped (ctx : GridCtx) (s : UIState) (row col : Nat)
    (hsel : s.selectedCell = some (row, col))
    (hlastcol : ctx.colCount ≤ col + 1)
    (hlastrow : row + 1 = ctx.data.length) :
    (handleCellKeyDown ctx s Key.tab).1.selectedCell = some (ctx.data.length, 0) ∧
    ctx.data.length - 1 < ctx.data.length ∧
    (handleCellKeyDown ctx s Key.enter).1.selectedCell
      = some (ctx.data.length - 1, col) := by
  have hblur : (handleCellBlur s).1.selectedCell = some (row, col) := by
    rw [handleCellBlur_fst_selectedCell, hsel]
  refine ⟨?_, by omega, ?_⟩
  · simp only [handleCellKeyDown, hblur]
    rw [if_pos hlastcol]
    simp [hlastrow]
  · simp only [handleCellKeyDown, hblur]
    have hmin : min (ctx.data.length - 1) (row + 1) = ctx.data.length - 1 := by omega
    simp [hmin]

/-- Concrete 2x2 grid context for the C10 witness. -/
def c10ctx : GridCtx :=
  { data := [[CellV.vnum 1, CellV.vnum 2], [CellV.vnum 3, CellV.vnum 4]],
    colCount := 2, formulas := [], hasSheetId := true }

/-- Concrete state editing the bottom-right cell `(1,1)`. -/
def c10state : UIState :=
  { selectedCell := some (1, 1), editingCell := some (1, 1, "x") }

/-- Witness for C10 on the concrete 2x2 grid: Tab from the bottom-right
cell selects row index 2 (one past the last data row), Enter stays on
row index 1. -/
theorem C10_tab_unclamped_enter_clamped_witness :
    (handleCellKeyDown c10ctx c10state Key.tab).1.selectedCell = some (2, 0) ∧
    1 < 2 ∧
    (handleCellKeyDown c10ctx c10state Key.enter).1.selectedCell = some (1, 1) :=
  C10_tab_unclamped_enter_clamped c10ctx c10state 1 1 rfl (by decide) (by decide)
